import Mathlib

/-!
Verification development for the Litgrid electricity-data analysis pipeline
(`run_analysis.py`).

Shallow embedding conventions:
- Timestamps are modelled as `Int` ticks, one tick per hour (the data is
  hourly), so `timedelta(days=182)` is `182 * 24` ticks.  A date value that
  is missing or unparseable (pandas `NaT`) is modelled as `none`.
- Numeric cell values are `Int`; a pandas `NaN` cell is `none`.
- A DataFrame is a `Table`: a list of column names plus a list of rows, each
  row an association list from column name to `Option Int` cell.
- Fallible pandas operations (`df[cols]` with an absent label raises
  `KeyError`) are modelled with `Except String`.
-/

namespace Litgrid

/-- A row of a DataFrame: cells keyed by column name.  A cell value of
`none` models a pandas `NaN`/`NaT`. -/
abbrev Row : Type := List (String × Option Int)

/-- A DataFrame: its column labels and its rows. -/
structure Table where
  cols : List String
  rows : List Row
  deriving DecidableEq, Repr

/-- Read the cell of column `c` in row `r`: the value stored at the first
entry keyed `c`, or `none` when the row has no such key (models both a
`NaN` cell and an absent column). -/
def getCell (r : Row) (c : String) : Option Int :=
  match r with
  | [] => none
  | (k, v) :: rest => if k = c then v else getCell rest c

/-- Whether row `r` carries a cell for column `c`. -/
def hasKey (r : Row) (c : String) : Bool :=
  match r with
  | [] => false
  | (k, _) :: rest => decide (k = c) || hasKey rest c

/-- Write the cell of column `c` in row `r` to `v`: replaces the entries
keyed `c` when present, otherwise appends a new cell (models pandas column
assignment, which overwrites an existing column or creates a new one). -/
def setCell (r : Row) (c : String) (v : Option Int) : Row :=
  if hasKey r c then
    r.map (fun kv => (kv.1, if kv.1 = c then v else kv.2))
  else r ++ [(c, v)]

/-- Maximum of a list of integers, `none` on the empty list.  Models the
pandas `Series.max()` used on the date column (NaT entries are removed
before this is applied, matching pandas' skip-NA default). -/
def maxOfList : List Int → Option Int
  | [] => none
  | x :: xs =>
    match maxOfList xs with
    | none => some x
    | some m => some (max x m)

/-- `SIX_MONTH_DAYS` from the source. -/
def SIX_MONTH_DAYS : Nat := 182

/-- `timedelta(days=SIX_MONTH_DAYS)` in hour ticks. -/
def sixMonthSpan : Int := (SIX_MONTH_DAYS : Int) * 24

/-- The largest parseable timestamp of column `c` of table `t`
(`df[date_col].max()` after the coercing parse), `none` when every value
is missing/unparseable. -/
def tableMaxDate (t : Table) (c : String) : Option Int :=
  maxOfList (t.rows.filterMap (fun r => getCell r c))

/-- The row-keeping test `df[date_col] >= cutoff` of the trim: a missing
(`NaT`) date compares false, so its row is dropped. -/
def keepRow (dateCol : String) (cutoff : Int) (r : Row) : Bool :=
  match getCell r dateCol with
  | some d => decide (cutoff ≤ d)
  | none => false

/-- `_limit_to_last_6_months` from the source: returns the input unchanged
when the table is empty or lacks the date column; otherwise parses the
date column (`errors="coerce"`: an unparseable value is already modelled as
`none`), and when a maximum timestamp exists keeps exactly the rows whose
date is at least `max - 182 days` (a `NaT` date compares false, so such
rows are dropped); when every date is `NaT` it returns the table
unchanged. -/
def limit_to_last_6_months (df : Table) (dateCol : String) : Table :=
  if df.rows.isEmpty then df
  else if dateCol ∈ df.cols then
    match tableMaxDate df dateCol with
    | none => df
    | some maxDt => ⟨df.cols, df.rows.filter (keepRow dateCol (maxDt - sixMonthSpan))⟩
  else df

theorem maxOfList_eq_none {l : List Int} (h : maxOfList l = none) : l = [] := by
  cases l with
  | nil => rfl
  | cons x xs => cases hy : maxOfList xs <;> simp [maxOfList, hy] at h

theorem maxOfList_le {l : List Int} {m : Int} (hm : maxOfList l = some m) :
    ∀ a ∈ l, a ≤ m := by
  induction l generalizing m with
  | nil => simp [maxOfList] at hm
  | cons x xs ih =>
    intro a ha
    rcases List.mem_cons.mp ha with rfl | ha
    · cases h : maxOfList xs with
      | none => simp [maxOfList, h] at hm; omega
      | some m' =>
        simp [maxOfList, h] at hm
        subst hm; exact le_max_left _ _
    · cases h : maxOfList xs with
      | none => rw [maxOfList_eq_none h] at ha; simp at ha
      | some m' =>
        have hle := ih h a ha
        simp [maxOfList, h] at hm
        subst hm
        exact le_trans hle (le_max_right _ _)

theorem maxOfList_mem {l : List Int} {m : Int} (hm : maxOfList l = some m) :
    m ∈ l := by
  induction l generalizing m with
  | nil => simp [maxOfList] at hm
  | cons x xs ih =>
    cases h : maxOfList xs with
    | none =>
      simp [maxOfList, h] at hm
      simp [hm]
    | some m' =>
      simp [maxOfList, h] at hm
      rcases max_choice x m' with hc | hc
      · rw [hc] at hm; subst hm; exact List.mem_cons_self _ _
      · rw [hc] at hm; exact hm ▸ List.mem_cons_of_mem _ (ih h)

theorem maxOfList_eq_some {l : List Int} {m : Int}
    (hmem : m ∈ l) (hub : ∀ a ∈ l, a ≤ m) : maxOfList l = some m := by
  induction l with
  | nil => simp at hmem
  | cons x xs ih =>
    cases h : maxOfList xs with
    | none =>
      rw [maxOfList_eq_none h] at hmem ⊢
      simp at hmem
      simp [maxOfList, hmem]
    | some m' =>
      have hm' : m' ≤ m := hub m' (List.mem_cons_of_mem _ (maxOfList_mem h))
      have hx : x ≤ m := hub x (List.mem_cons_self _ _)
      simp [maxOfList, h]
      rcases List.mem_cons.mp hmem with rfl | hmem
      · exact max_eq_left hm'
      · have hmm := ih hmem (fun a ha => hub a (List.mem_cons_of_mem _ ha))
        rw [h] at hmm
        have hmm' : m' = m := by injection hmm
        rw [hmm']
        exact max_eq_right hx

theorem isEmpty_false_of_ne {α : Type} {l : List α} (h : l ≠ []) :
    l.isEmpty = false := by
  cases l with
  | nil => exact absurd rfl h
  | cons a as => rfl

theorem limit6_of_empty {df : Table} (c : String) (h : df.rows = []) :
    limit_to_last_6_months df c = df := by
  simp [limit_to_last_6_months, h]

theorem limit6_of_not_mem {df : Table} {c : String} (h : c ∉ df.cols) :
    limit_to_last_6_months df c = df := by
  simp [limit_to_last_6_months, h]

theorem limit6_of_max_none {df : Table} {c : String}
    (h : tableMaxDate df c = none) : limit_to_last_6_months df c = df := by
  unfold limit_to_last_6_months
  rw [h]
  simp

theorem limit6_of_max_some {df : Table} {c : String} {T : Int}
    (hne : df.rows.isEmpty = false) (hc : c ∈ df.cols)
    (h : tableMaxDate df c = some T) :
    limit_to_last_6_months df c
      = ⟨df.cols, df.rows.filter (keepRow c (T - sixMonthSpan))⟩ := by
  unfold limit_to_last_6_months
  rw [h]
  simp [hne, hc]

theorem limit6_cols (df : Table) (c : String) :
    (limit_to_last_6_months df c).cols = df.cols := by
  unfold limit_to_last_6_months
  split
  · rfl
  · split
    · split <;> rfl
    · rfl

theorem tableMaxDate_some_rows_ne {df : Table} {c : String} {T : Int}
    (h : tableMaxDate df c = some T) : df.rows.isEmpty = false := by
  cases hr : df.rows with
  | nil => rw [tableMaxDate, hr] at h; simp [maxOfList] at h
  | cons r rs => rfl

/-- Claim C3: with the date column present and a maximum timestamp `T`, the
trim keeps exactly the rows whose timestamp lies in `[T - 182 days, T]`
inclusive; an empty table, or one lacking the date column, is returned
unchanged. -/
theorem trim_window_exact (t : Table) :
    (∀ T : Int, "data" ∈ t.cols → tableMaxDate t "data" = some T →
      (limit_to_last_6_months t "data").rows
        = t.rows.filter (fun r =>
            match getCell r "data" with
            | some d => decide (T - sixMonthSpan ≤ d) && decide (d ≤ T)
            | none => false)) ∧
    (t.rows = [] → limit_to_last_6_months t "data" = t) ∧
    ("data" ∉ t.cols → limit_to_last_6_months t "data" = t) := by
  refine ⟨?_, fun h => limit6_of_empty _ h, fun h => limit6_of_not_mem h⟩
  intro T hc hmax
  rw [limit6_of_max_some (tableMaxDate_some_rows_ne hmax) hc hmax]
  apply List.filter_congr
  intro r hr
  cases hcell : getCell r "data" with
  | none => simp [keepRow, hcell]
  | some d =>
    have hd : d ≤ T :=
      maxOfList_le hmax d (List.mem_filterMap.mpr ⟨r, hr, hcell⟩)
    simp [keepRow, hcell, hd]

/-- Witness for C3 at a concrete table: rows dated 0, 600 and 5000 (hours);
the max is 5000, the cutoff 5000 - 4368 = 632, so exactly the rows dated
5000 and the row dated 632 ≤ 600?  600 < 632, so only the row dated 5000
survives. -/
theorem trim_window_exact_witness :
    ("data" ∈ (Table.mk ["data", "Hidro"]
        [[("data", some 0), ("Hidro", some 1)],
         [("data", some 600), ("Hidro", some 2)],
         [("data", some 5000), ("Hidro", some 3)]]).cols) ∧
    tableMaxDate (Table.mk ["data", "Hidro"]
        [[("data", some 0), ("Hidro", some 1)],
         [("data", some 600), ("Hidro", some 2)],
         [("data", some 5000), ("Hidro", some 3)]]) "data" = some 5000 ∧
    (limit_to_last_6_months (Table.mk ["data", "Hidro"]
        [[("data", some 0), ("Hidro", some 1)],
         [("data", some 600), ("Hidro", some 2)],
         [("data", some 5000), ("Hidro", some 3)]]) "data").rows
      = (Table.mk ["data", "Hidro"]
        [[("data", some 0), ("Hidro", some 1)],
         [("data", some 600), ("Hidro", some 2)],
         [("data", some 5000), ("Hidro", some 3)]]).rows.filter (fun r =>
            match getCell r "data" with
            | some d => decide ((5000 : Int) - sixMonthSpan ≤ d) && decide (d ≤ (5000 : Int))
            | none => false) :=
  ⟨by decide, by decide,
    (trim_window_exact _).1 5000 (by decide) (by decide)⟩

/-- Claim C9: the rolling-window trim is idempotent on every table. -/
theorem trim_idempotent (t : Table) (c : String) :
    limit_to_last_6_months (limit_to_last_6_months t c) c
      = limit_to_last_6_months t c := by
  cases hE : t.rows with
  | nil => rw [limit6_of_empty c hE, limit6_of_empty c hE]
  | cons r0 rs0 =>
    by_cases hc : c ∈ t.cols
    · cases hm : tableMaxDate t c with
      | none => rw [limit6_of_max_none hm, limit6_of_max_none hm]
      | some T =>
        have hne : t.rows.isEmpty = false := tableMaxDate_some_rows_ne hm
        rw [limit6_of_max_some hne hc hm]
        -- the row attaining the max survives the trim
        obtain ⟨rT, hrT, hcellT⟩ := List.mem_filterMap.mp (maxOfList_mem hm)
        have hspan : (0 : Int) ≤ sixMonthSpan := by decide
        have hkeep : keepRow c (T - sixMonthSpan) rT = true := by
          simp [keepRow, hcellT]; omega
        have hmemfil : rT ∈ t.rows.filter (keepRow c (T - sixMonthSpan)) :=
          List.mem_filter.mpr ⟨hrT, hkeep⟩
        have hne2 : (t.rows.filter (keepRow c (T - sixMonthSpan))).isEmpty = false :=
          isEmpty_false_of_ne (List.ne_nil_of_mem hmemfil)
        have hmax2 : tableMaxDate
            ⟨t.cols, t.rows.filter (keepRow c (T - sixMonthSpan))⟩ c = some T := by
          apply maxOfList_eq_some
          · exact List.mem_filterMap.mpr ⟨rT, hmemfil, hcellT⟩
          · intro a ha
            obtain ⟨r', hr', hcell'⟩ := List.mem_filterMap.mp ha
            exact maxOfList_le hm a
              (List.mem_filterMap.mpr ⟨r', (List.mem_filter.mp hr').1, hcell'⟩)
        have hfil : (t.rows.filter (keepRow c (T - sixMonthSpan))).filter
              (keepRow c (T - sixMonthSpan))
            = t.rows.filter (keepRow c (T - sixMonthSpan)) :=
          List.filter_eq_self.mpr (fun a ha => (List.mem_filter.mp ha).2)
        rw [@limit6_of_max_some
          ⟨t.cols, t.rows.filter (keepRow c (T - sixMonthSpan))⟩ c T
          hne2 hc hmax2, hfil]
    · rw [limit6_of_not_mem hc, limit6_of_not_mem hc]

/-- Claim C10: on a non-empty table with the date column, an unparseable
date is coerced to a missing timestamp (`none` in this model): when every
date value is missing the table is returned unchanged, and otherwise every
row with a missing date is excluded from the trimmed result.  The trim is
a total function, so it never raises. -/
theorem trim_unparseable_dates (t : Table)
    (hc : "data" ∈ t.cols) (hne : t.rows ≠ []) :
    ((∀ r ∈ t.rows, getCell r "data" = none) →
      limit_to_last_6_months t "data" = t) ∧
    (∀ T : Int, tableMaxDate t "data" = some T →
      ∀ r ∈ t.rows, getCell r "data" = none →
        r ∉ (limit_to_last_6_months t "data").rows) := by
  constructor
  · intro hall
    apply limit6_of_max_none
    unfold tableMaxDate
    rw [List.filterMap_eq_nil_iff.mpr hall]
    rfl
  · intro T hT r hr hnone hmem
    rw [limit6_of_max_some (tableMaxDate_some_rows_ne hT) hc hT] at hmem
    have := (List.mem_filter.mp hmem).2
    rw [keepRow, hnone] at this
    exact absurd this (by simp)

/-- Witness for C10 at a table with one unparseable date (row kept out) and
one parseable date. -/
theorem trim_unparseable_dates_witness :
    ("data" ∈ (Table.mk ["data"] [[("data", none)], [("data", some 10)]]).cols) ∧
    (Table.mk ["data"] [[("data", none)], [("data", some 10)]]).rows ≠ [] ∧
    tableMaxDate (Table.mk ["data"] [[("data", none)], [("data", some 10)]]) "data"
      = some 10 ∧
    getCell [("data", (none : Option Int))] "data" = none ∧
    [("data", (none : Option Int))] ∉
      (limit_to_last_6_months
        (Table.mk ["data"] [[("data", none)], [("data", some 10)]]) "data").rows :=
  ⟨by decide, by decide, by decide, by decide,
    (trim_unparseable_dates _ (by decide) (by decide)).2 10 (by decide)
      [("data", none)] (by decide) (by decide)⟩

/-- A raw API record, projected onto the two fields the pipeline reads:
`ltu` (the timestamp, already parsed to hour ticks) and `value`.  A `none`
field models the key being absent from the JSON record (a `NaN` cell once
the records become a DataFrame). -/
structure RawRecord where
  ltu : Option Int
  value : Option Int
  deriving DecidableEq, Repr

/-- Outcome of one HTTP attempt inside `fetch_dataset`: either a response
with a status code and a parsed JSON body, or an exception raised during
the request. -/
inductive AttemptOutcome where
  | response (status : Nat) (body : List RawRecord)
  | exn
  deriving DecidableEq, Repr

/-- An attempt outcome the retry loop treats as failed under claim C2's
hypothesis: a non-2xx status or an exception.  (The code itself retries on
anything other than exactly status 200.) -/
def isFailedAttempt : AttemptOutcome → Bool
  | .response s _ => decide (s < 200 ∨ 300 ≤ s)
  | .exn => true

/-- An observable event of `fetch_dataset`: an HTTP attempt (with its
0-based index and whether it returned status 200) or a `time.sleep`. -/
inductive FetchEvent where
  | attempt (idx : Nat) (succeeded : Bool)
  | sleep (seconds : Nat)
  deriving DecidableEq, Repr

/-- The retry loop of `fetch_dataset` from attempt index `i` with `fuel`
iterations left (`for attempt in range(3)` enters with fuel 3).  Returns
the result together with the trace of attempts and sleeps: a status-200
response is returned immediately; any other status, and any exception
(caught by the `try`/`except`), is followed by a 5-second sleep and the
next iteration; when the loop ends the function returns the empty list. -/
def fetchFrom (att : Nat → AttemptOutcome) : Nat → Nat → List RawRecord × List FetchEvent
  | _, 0 => ([], [])
  | i, fuel + 1 =>
    match att i with
    | .response s body =>
      if s = 200 then (body, [.attempt i true])
      else
        let rest := fetchFrom att (i + 1) fuel
        (rest.1, .attempt i false :: .sleep 5 :: rest.2)
    | .exn =>
      let rest := fetchFrom att (i + 1) fuel
      (rest.1, .attempt i false :: .sleep 5 :: rest.2)

/-- `fetch_dataset` from the source, parameterised by the network (`att i`
is the outcome of the `requests.get` call of attempt `i`).  It is a total
function: every exception during a request is caught inside the loop, so
nothing propagates to the caller. -/
def fetch_dataset (att : Nat → AttemptOutcome) : List RawRecord × List FetchEvent :=
  fetchFrom att 0 3

/-- Claim C2: when every attempt fails (non-2xx status, or an exception),
`fetch_dataset` makes exactly 3 attempts, each followed by a fixed
5-second sleep, and returns the empty result.  Being a total Lean
function whose exception-like outcomes are all handled, it never raises to
its caller. -/
theorem fetch_retries_three_times (att : Nat → AttemptOutcome)
    (h : ∀ i < 3, isFailedAttempt (att i) = true) :
    fetch_dataset att =
      ([], [.attempt 0 false, .sleep 5, .attempt 1 false, .sleep 5,
            .attempt 2 false, .sleep 5]) := by
  have step : ∀ i fuel, isFailedAttempt (att i) = true →
      fetchFrom att i (fuel + 1)
        = ((fetchFrom att (i + 1) fuel).1,
           .attempt i false :: .sleep 5 :: (fetchFrom att (i + 1) fuel).2) := by
    intro i fuel hi
    cases hatt : att i with
    | response s body =>
      rw [hatt] at hi
      have hs : ¬ s = 200 := by
        simp [isFailedAttempt] at hi
        omega
      simp [fetchFrom, hatt, hs]
    | exn => simp [fetchFrom, hatt]
  rw [fetch_dataset, step 0 2 (h 0 (by omega)), step 1 1 (h 1 (by omega)),
    step 2 0 (h 2 (by omega))]
  rfl

/-- Witness for C2: a network on which every request raises. -/
theorem fetch_retries_three_times_witness :
    (∀ i < 3, isFailedAttempt ((fun _ => AttemptOutcome.exn) i) = true) ∧
    fetch_dataset (fun _ => AttemptOutcome.exn) =
      ([], [.attempt 0 false, .sleep 5, .attempt 1 false, .sleep 5,
            .attempt 2 false, .sleep 5]) :=
  ⟨fun _ _ => rfl, fetch_retries_three_times _ (fun _ _ => rfl)⟩

/-- First occurrence of key `a` in an association list (how a pandas index
lookup behaves once the index has unique keys, and how `drop_duplicates`
chooses values: the first record wins). -/
def lookupFirst {α β : Type} [DecidableEq α] (l : List (α × β)) (a : α) : Option β :=
  match l with
  | [] => none
  | (k, v) :: rest => if k = a then some v else lookupFirst rest a

/-- Core loop of `dedupFirst`, structurally recursive on a fuel bound (the
fuel is always at least the list length, so the zero-fuel branch is never
reached). -/
def dedupFirstGo {α β : Type} [DecidableEq α] : Nat → List (α × β) → List (α × β)
  | _, [] => []
  | 0, _ :: _ => []
  | fuel + 1, p :: rest =>
    p :: dedupFirstGo fuel (rest.filter (fun q => !decide (q.1 = p.1)))

/-- `DataFrame.drop_duplicates(subset=key)` with the default `keep="first"`:
keeps the first pair for each key, in order, discarding later pairs with an
already-seen key. -/
def dedupFirst {α β : Type} [DecidableEq α] (l : List (α × β)) : List (α × β) :=
  dedupFirstGo l.length l

theorem dedupFirstGo_fuel {α β : Type} [DecidableEq α] :
    ∀ (f1 f2 : Nat) (l : List (α × β)), l.length ≤ f1 → l.length ≤ f2 →
    dedupFirstGo f1 l = dedupFirstGo f2 l := by
  intro f1
  induction f1 with
  | zero =>
    intro f2 l h1 h2
    cases l with
    | nil => cases f2 <;> rfl
    | cons p rest => simp at h1
  | succ f ih =>
    intro f2 l h1 h2
    cases l with
    | nil => cases f2 <;> rfl
    | cons p rest =>
      cases f2 with
      | zero => simp at h2
      | succ g =>
        simp only [dedupFirstGo]
        have hr1 : rest.length ≤ f := by simp at h1; omega
        have hr2 : rest.length ≤ g := by simp at h2; omega
        rw [ih g _ (le_trans (List.length_filter_le _ _) hr1)
          (le_trans (List.length_filter_le _ _) hr2)]

theorem dedupFirst_cons {α β : Type} [DecidableEq α]
    (p : α × β) (rest : List (α × β)) :
    dedupFirst (p :: rest)
      = p :: dedupFirst (rest.filter (fun q => !decide (q.1 = p.1))) := by
  rw [dedupFirst, dedupFirst]
  simp only [List.length_cons, dedupFirstGo]
  rw [dedupFirstGo_fuel rest.length _ _ (List.length_filter_le _ _) le_rfl]

theorem dedupFirst_key_mem {α β : Type} [DecidableEq α]
    {l : List (α × β)} {a : α} :
    a ∈ (dedupFirst l).map Prod.fst ↔ a ∈ l.map Prod.fst := by
  suffices hgen : ∀ (n : Nat) (l : List (α × β)), l.length ≤ n → ∀ a : α,
      (a ∈ (dedupFirst l).map Prod.fst ↔ a ∈ l.map Prod.fst) from
    hgen l.length l le_rfl a
  intro n
  induction n with
  | zero =>
    intro l hl a
    cases l with
    | nil => simp [dedupFirst, dedupFirstGo]
    | cons p rest => simp at hl
  | succ n ih =>
    intro l hl a
    cases l with
    | nil => simp [dedupFirst, dedupFirstGo]
    | cons p rest =>
      have hr : (rest.filter (fun q => !decide (q.1 = p.1))).length ≤ n :=
        le_trans (List.length_filter_le _ _) (by simp at hl; omega)
      rw [dedupFirst_cons]
      by_cases ha : a = p.1
      · simp [ha]
      · simp only [List.map_cons, List.mem_cons, ha, false_or]
        rw [ih _ hr a]
        constructor
        · rintro hmem
          obtain ⟨q, hq, rfl⟩ := List.mem_map.mp hmem
          exact List.mem_map.mpr ⟨q, (List.mem_filter.mp hq).1, rfl⟩
        · rintro hmem
          obtain ⟨q, hq, rfl⟩ := List.mem_map.mp hmem
          refine List.mem_map.mpr ⟨q, List.mem_filter.mpr ⟨hq, ?_⟩, rfl⟩
          simpa using ha

theorem dedupFirst_keys_nodup {α β : Type} [DecidableEq α]
    (l : List (α × β)) : ((dedupFirst l).map Prod.fst).Nodup := by
  suffices hgen : ∀ (n : Nat) (l : List (α × β)), l.length ≤ n →
      ((dedupFirst l).map Prod.fst).Nodup from hgen l.length l le_rfl
  intro n
  induction n with
  | zero =>
    intro l hl
    cases l with
    | nil => simp [dedupFirst, dedupFirstGo]
    | cons p rest => simp at hl
  | succ n ih =>
    intro l hl
    cases l with
    | nil => simp [dedupFirst, dedupFirstGo]
    | cons p rest =>
      have hr : (rest.filter (fun q => !decide (q.1 = p.1))).length ≤ n :=
        le_trans (List.length_filter_le _ _) (by simp at hl; omega)
      rw [dedupFirst_cons, List.map_cons]
      refine List.nodup_cons.mpr ⟨?_, ih _ hr⟩
      intro hmem
      obtain ⟨q, hq, hqa⟩ := List.mem_map.mp (dedupFirst_key_mem.mp hmem)
      have hflt := (List.mem_filter.mp hq).2
      rw [hqa] at hflt
      simp at hflt

theorem lookupFirst_filter_ne {α β : Type} [DecidableEq α]
    {l : List (α × β)} {a b : α} (hab : a ≠ b) :
    lookupFirst (l.filter (fun q => !decide (q.1 = b))) a = lookupFirst l a := by
  induction l with
  | nil => rfl
  | cons q rest ih =>
    by_cases hq : q.1 = b
    · have hba : ¬ b = a := fun h => hab h.symm
      simp [List.filter_cons, hq, lookupFirst, hba, ih]
    · by_cases hqa : q.1 = a
      · simp [List.filter_cons, hq, lookupFirst, hqa, hab]
      · simp [List.filter_cons, hq, lookupFirst, hqa, ih]

theorem lookupFirst_dedupFirst {α β : Type} [DecidableEq α]
    (l : List (α × β)) (a : α) :
    lookupFirst (dedupFirst l) a = lookupFirst l a := by
  suffices hgen : ∀ (n : Nat) (l : List (α × β)), l.length ≤ n → ∀ a : α,
      lookupFirst (dedupFirst l) a = lookupFirst l a from hgen l.length l le_rfl a
  intro n
  induction n with
  | zero =>
    intro l hl a
    cases l with
    | nil => rfl
    | cons p rest => simp at hl
  | succ n ih =>
    intro l hl a
    cases l with
    | nil => rfl
    | cons p rest =>
      have hr : (rest.filter (fun q => !decide (q.1 = p.1))).length ≤ n :=
        le_trans (List.length_filter_le _ _) (by simp at hl; omega)
      rw [dedupFirst_cons]
      simp only [lookupFirst]
      by_cases hp : p.1 = a
      · rw [if_pos hp, if_pos hp]
      · rw [if_neg hp, if_neg hp, ih _ hr a,
          lookupFirst_filter_ne (fun h => hp h.symm)]

theorem lookupFirst_eq_none {α β : Type} [DecidableEq α]
    {l : List (α × β)} {a : α} :
    lookupFirst l a = none ↔ a ∉ l.map Prod.fst := by
  induction l with
  | nil => simp [lookupFirst]
  | cons q rest ih =>
    by_cases hq : q.1 = a
    · simp [lookupFirst, hq]
    · have : ¬ a = q.1 := fun h => hq h.symm
      simp [lookupFirst, hq, ih, this]

theorem dedupFirst_nodup_id {α β : Type} [DecidableEq α]
    {l : List (α × β)} (h : (l.map Prod.fst).Nodup) : dedupFirst l = l := by
  suffices hgen : ∀ (n : Nat) (l : List (α × β)), l.length ≤ n →
      (l.map Prod.fst).Nodup → dedupFirst l = l from hgen l.length l le_rfl h
  intro n
  induction n with
  | zero =>
    intro l hl _
    cases l with
    | nil => rfl
    | cons p rest => simp at hl
  | succ n ih =>
    intro l hl hnd
    cases l with
    | nil => rfl
    | cons p rest =>
      rw [List.map_cons, List.nodup_cons] at hnd
      have hfil : rest.filter (fun q => !decide (q.1 = p.1)) = rest := by
        apply List.filter_eq_self.mpr
        intro q hq
        have hne2 : ¬ q.1 = p.1 :=
          fun he => hnd.1 (he ▸ List.mem_map.mpr ⟨q, hq, rfl⟩)
        simpa using hne2
      rw [dedupFirst_cons, hfil, ih rest (by simp at hl; omega) hnd.2]

theorem dedupFirst_length {α β : Type} [DecidableEq α] (l : List (α × β)) :
    (dedupFirst l).length = (l.map Prod.fst).dedup.length := by
  have h1 : ((dedupFirst l).map Prod.fst).Nodup := dedupFirst_keys_nodup l
  have h2 : ((dedupFirst l).map Prod.fst).toFinset = (l.map Prod.fst).toFinset := by
    ext a
    simp only [List.mem_toFinset]
    exact dedupFirst_key_mem
  calc (dedupFirst l).length
      = ((dedupFirst l).map Prod.fst).length := (List.length_map _ _).symm
    _ = ((dedupFirst l).map Prod.fst).toFinset.card :=
        (List.toFinset_card_of_nodup h1).symm
    _ = (l.map Prod.fst).toFinset.card := by rw [h2]
    _ = (l.map Prod.fst).dedup.length := List.card_toFinset _

/-- A normalized series (lines 97-103 of the source): the series' display
name together with its `(timestamp, value)` pairs after selection of the
two columns and `drop_duplicates` on the timestamp. -/
structure NormSeries where
  name : String
  entries : List (Option Int × Option Int)
  deriving DecidableEq, Repr

/-- `"ltu" in df.columns` for `df = pd.DataFrame(data)`: the column exists
when some record carries the field. -/
def hasLtuCol (data : List RawRecord) : Bool :=
  data.any (fun r => r.ltu.isSome)

/-- `"value" in df.columns` for `df = pd.DataFrame(data)`. -/
def hasValueCol (data : List RawRecord) : Bool :=
  data.any (fun r => r.value.isSome)

/-- The per-series normalization of `fetch_all_data` (lines 97-103):
returns `none` (series skipped) when the fetch result is empty or the
expected columns are absent; otherwise selects the `ltu`/`value` fields,
renames them, and deduplicates by timestamp keeping the first occurrence
(`drop_duplicates(subset="data")`). -/
def normalize (data : List RawRecord) (name : String) : Option NormSeries :=
  if data.isEmpty then none
  else if hasLtuCol data && hasValueCol data then
    some ⟨name, dedupFirst (data.map (fun r => (r.ltu, r.value)))⟩
  else none

/-- Claim C7: on a non-empty raw record list whose records all carry both
fields, normalization succeeds and deduplicates by timestamp with the
first-occurrence-wins policy: the resulting keys are unique, their count
is the number of distinct timestamps in the input, every lookup agrees
with the first matching raw record, and re-normalizing the output is a
no-op. -/
theorem normalize_dedup_first (data : List RawRecord) (name : String)
    (hne : data ≠ [])
    (hf : ∀ r ∈ data, r.ltu.isSome ∧ r.value.isSome) :
    ∃ es, normalize data name = some ⟨name, es⟩ ∧
      (es.map Prod.fst).Nodup ∧
      es.length = (data.map RawRecord.ltu).dedup.length ∧
      (∀ k, lookupFirst es k
        = lookupFirst (data.map (fun r => (r.ltu, r.value))) k) ∧
      normalize (es.map (fun p => ⟨p.1, p.2⟩)) name = some ⟨name, es⟩ := by
  obtain ⟨r0, rest, rfl⟩ : ∃ r0 rest, data = r0 :: rest := by
    cases data with
    | nil => exact absurd rfl hne
    | cons r0 rest => exact ⟨r0, rest, rfl⟩
  have h0 := hf r0 (List.mem_cons_self _ _)
  have hltu : hasLtuCol (r0 :: rest) = true :=
    List.any_eq_true.mpr ⟨r0, List.mem_cons_self _ _, h0.1⟩
  have hval : hasValueCol (r0 :: rest) = true :=
    List.any_eq_true.mpr ⟨r0, List.mem_cons_self _ _, h0.2⟩
  refine ⟨dedupFirst ((r0 :: rest).map (fun r => (r.ltu, r.value))), ?_, ?_, ?_, ?_, ?_⟩
  · simp [normalize, hltu, hval]
  · exact dedupFirst_keys_nodup _
  · rw [dedupFirst_length, List.map_map]
    rfl
  · exact fun k => lookupFirst_dedupFirst _ k
  · -- re-normalizing the deduplicated series is a no-op
    have hhead : dedupFirst ((r0 :: rest).map (fun r => (r.ltu, r.value)))
        = (r0.ltu, r0.value) :: dedupFirst
            ((rest.map (fun r => (r.ltu, r.value))).filter
              (fun q => !decide (q.1 = r0.ltu))) := by
      rw [List.map_cons, dedupFirst_cons]
    set es := dedupFirst ((r0 :: rest).map (fun r => (r.ltu, r.value))) with hes
    have hproj : (es.map (fun p => RawRecord.mk p.1 p.2)).map
        (fun r => (r.ltu, r.value)) = es := by
      rw [List.map_map]
      have hcomp : ((fun r : RawRecord => (r.ltu, r.value))
          ∘ fun p : Option Int × Option Int => RawRecord.mk p.1 p.2) = id := by
        funext p
        rfl
      rw [hcomp, List.map_id]
    have hne2 : (es.map (fun p => RawRecord.mk p.1 p.2)).isEmpty = false := by
      rw [hhead]
      rfl
    have hltu2 : hasLtuCol (es.map (fun p => RawRecord.mk p.1 p.2)) = true := by
      apply List.any_eq_true.mpr
      refine ⟨⟨r0.ltu, r0.value⟩, ?_, h0.1⟩
      rw [hhead]
      exact List.mem_cons_self _ _
    have hval2 : hasValueCol (es.map (fun p => RawRecord.mk p.1 p.2)) = true := by
      apply List.any_eq_true.mpr
      refine ⟨⟨r0.ltu, r0.value⟩, ?_, h0.2⟩
      rw [hhead]
      exact List.mem_cons_self _ _
    rw [normalize, if_neg (by simp [hne2]), if_pos (by simp [hltu2, hval2])]
    rw [hproj, dedupFirst_nodup_id (dedupFirst_keys_nodup _)]

/-- Witness for C7 at a concrete record list with a duplicated timestamp:
the first occurrence (value 10) wins over the later one (value 99). -/
theorem normalize_dedup_first_witness :
    ([⟨some 1, some 10⟩, ⟨some 1, some 99⟩, ⟨some 2, some 20⟩]
        : List RawRecord) ≠ [] ∧
    (∀ r ∈ ([⟨some 1, some 10⟩, ⟨some 1, some 99⟩, ⟨some 2, some 20⟩]
        : List RawRecord), r.ltu.isSome ∧ r.value.isSome) ∧
    (∃ es, normalize ([⟨some 1, some 10⟩, ⟨some 1, some 99⟩,
          ⟨some 2, some 20⟩] : List RawRecord) "Saules" = some ⟨"Saules", es⟩ ∧
      (es.map Prod.fst).Nodup ∧
      es.length = (([⟨some 1, some 10⟩, ⟨some 1, some 99⟩, ⟨some 2, some 20⟩]
          : List RawRecord).map RawRecord.ltu).dedup.length ∧
      (∀ k, lookupFirst es k
        = lookupFirst (([⟨some 1, some 10⟩, ⟨some 1, some 99⟩,
            ⟨some 2, some 20⟩] : List RawRecord).map
              (fun r => (r.ltu, r.value))) k) ∧
      normalize (es.map (fun p => ⟨p.1, p.2⟩)) "Saules" = some ⟨"Saules", es⟩) :=
  ⟨by decide, by decide,
    normalize_dedup_first _ "Saules" (by decide) (by decide)⟩

/-- The union of the timestamp indexes of all normalized series, as built
by `pd.concat(all_dfs, axis=1, join="outer")` (duplicates collapse since
each per-series index is unique). -/
def unionKeys (series : List NormSeries) : List (Option Int) :=
  (series.flatMap (fun s => s.entries.map Prod.fst)).dedup

/-- The merged index after `sort_index()`: timestamps ascending, with a
`NaT` index entry placed last (pandas' default `na_position`). -/
def sortedKeys (series : List NormSeries) : List (Option Int) :=
  (((unionKeys series).filterMap id).insertionSort (· ≤ ·)).map some
    ++ (if none ∈ unionKeys series then [none] else [])

/-- The cell a series contributes at index `k`: its (unique) record value
there, or `NaN` when the series has no record at `k`. -/
def cellOf (s : NormSeries) (k : Option Int) : Option Int :=
  match lookupFirst s.entries k with
  | some v => v
  | none => none

/-- One row of the merged table after `reset_index()`: the `data` column
first, then one cell per series, in series order. -/
def mkRow (series : List NormSeries) (k : Option Int) : Row :=
  ("data", k) :: series.map (fun s => (s.name, cellOf s k))

/-- Lines 112-115 of the source: with no successfully normalized series the
result is the explicitly-empty `pd.DataFrame()`; otherwise the full outer
join of all series on the timestamp index, sorted by time, index reset to
the `data` column.  (The subsequent window trim of line 116 is the separate
`limit_to_last_6_months` step.) -/
def mergeSeries (series : List NormSeries) : Table :=
  if series.isEmpty then ⟨[], []⟩
  else ⟨"data" :: series.map NormSeries.name,
    (sortedKeys series).map (mkRow series)⟩

theorem lookupFirst_mem {α β : Type} [DecidableEq α]
    {l : List (α × β)} {a : α} {b : β} (h : lookupFirst l a = some b) :
    (a, b) ∈ l := by
  induction l with
  | nil => simp [lookupFirst] at h
  | cons q rest ih =>
    by_cases hq : q.1 = a
    · rw [lookupFirst, if_pos hq] at h
      have hb : q.2 = b := by injection h
      exact hq ▸ hb ▸ List.mem_cons_self _ _
    · rw [lookupFirst, if_neg hq] at h
      exact List.mem_cons_of_mem _ (ih h)

theorem getCell_map_series {series : List NormSeries}
    (hnames : (series.map NormSeries.name).Nodup)
    {s : NormSeries} (hs : s ∈ series) (f : NormSeries → Option Int) :
    getCell (series.map (fun s' => (s'.name, f s'))) s.name = f s := by
  induction series with
  | nil => simp at hs
  | cons s0 tail ih =>
    rw [List.map_cons, List.nodup_cons] at hnames
    by_cases h : s0.name = s.name
    · have hs0 : s = s0 := by
        rcases List.mem_cons.mp hs with rfl | hmem
        · rfl
        · exact absurd (h ▸ List.mem_map.mpr ⟨s, hmem, rfl⟩) hnames.1
      rw [List.map_cons, getCell, if_pos h, hs0]
    · have hmem : s ∈ tail := by
        rcases List.mem_cons.mp hs with rfl | hmem
        · exact absurd rfl h
        · exact hmem
      rw [List.map_cons, getCell, if_neg h]
      exact ih hnames.2 hmem

theorem getCell_mkRow_data (series : List NormSeries) (k : Option Int) :
    getCell (mkRow series k) "data" = k := by
  simp [mkRow, getCell]

/-- Claim C4: for well-formed normalized series with distinct names, the
merge is a full outer join on the timestamp key: the merged rows carry
exactly the (strictly ascending, duplicate-free) union of the input
timestamps, and a series' cell is missing in a row exactly when that
series has no record at the row's timestamp. -/
theorem merge_outer_join (series : List NormSeries)
    (hnames : (series.map NormSeries.name).Nodup)
    (hdata : "data" ∉ series.map NormSeries.name)
    (hkeys : ∀ s ∈ series, ∀ p ∈ s.entries, p.1.isSome)
    (hvals : ∀ s ∈ series, ∀ p ∈ s.entries, p.2.isSome) :
    ∃ ds : List Int,
      List.Sorted (· < ·) ds ∧
      (mergeSeries series).rows.map (fun r => getCell r "data")
        = ds.map some ∧
      (∀ x : Int, x ∈ ds ↔ ∃ s ∈ series, some x ∈ s.entries.map Prod.fst) ∧
      (∀ r ∈ (mergeSeries series).rows, ∀ s ∈ series, ∀ x : Int,
        getCell r "data" = some x →
          (getCell r s.name = none ↔ some x ∉ s.entries.map Prod.fst)) := by
  have hnone : none ∉ unionKeys series := by
    intro h
    obtain ⟨s, hs, hmem⟩ := List.mem_flatMap.mp (List.mem_dedup.mp h)
    obtain ⟨p, hp, hfst⟩ := List.mem_map.mp hmem
    have his := hkeys s hs p hp
    rw [hfst] at his
    simp at his
  have hsk : sortedKeys series
      = (((unionKeys series).filterMap id).insertionSort (· ≤ ·)).map some := by
    rw [sortedKeys, if_neg hnone, List.append_nil]
  refine ⟨((unionKeys series).filterMap id).insertionSort (· ≤ ·), ?_, ?_, ?_, ?_⟩
  · -- strictly sorted: sorted 'le' plus nodup
    have hnd : ((unionKeys series).filterMap id).Nodup := by
      apply List.Nodup.filterMap
      · intro a a' b h1 h2
        simp only [id_eq, Option.mem_def] at h1 h2
        rw [h1, h2]
      · exact List.nodup_dedup _
    have hnd2 := ((List.perm_insertionSort (· ≤ ·) _).symm.nodup hnd)
    exact (List.sorted_insertionSort (· ≤ ·) _).lt_of_le hnd2
  · by_cases hE : series.isEmpty
    · have : series = [] := by
        cases series with
        | nil => rfl
        | cons a l => simp at hE
      subst this
      rfl
    · rw [mergeSeries, if_neg hE]
      rw [show (Table.mk ("data" :: series.map NormSeries.name)
          ((sortedKeys series).map (mkRow series))).rows
          = (sortedKeys series).map (mkRow series) from rfl]
      rw [List.map_map, hsk, List.map_map]
      apply List.map_congr_left
      intro x _
      exact getCell_mkRow_data series (some x)
  · intro x
    rw [(List.perm_insertionSort (· ≤ ·) _).mem_iff]
    constructor
    · intro hx
      obtain ⟨a, ha, hax⟩ := List.mem_filterMap.mp hx
      have hax2 : a = some x := by simpa using hax
      subst hax2
      obtain ⟨s, hs, hmem⟩ := List.mem_flatMap.mp (List.mem_dedup.mp ha)
      exact ⟨s, hs, hmem⟩
    · rintro ⟨s, hs, hmem⟩
      apply List.mem_filterMap.mpr
      refine ⟨some x, ?_, rfl⟩
      apply List.mem_dedup.mpr
      exact List.mem_flatMap.mpr ⟨s, hs, hmem⟩
  · intro r hr s hs x hx
    have hEne : series.isEmpty = false := by
      cases series with
      | nil => simp at hs
      | cons a l => rfl
    rw [mergeSeries, if_neg (by simp [hEne])] at hr
    obtain ⟨k, _, rfl⟩ := List.mem_map.mp hr
    rw [getCell_mkRow_data] at hx
    subst hx
    have hname_ne : ¬ "data" = s.name := by
      intro h
      exact hdata (h ▸ List.mem_map.mpr ⟨s, hs, rfl⟩)
    rw [show mkRow series (some x)
        = ("data", some x) :: series.map (fun s' => (s'.name, cellOf s' (some x)))
        from rfl]
    rw [getCell, if_neg hname_ne, getCell_map_series hnames hs]
    constructor
    · intro hcell hmem
      cases hl : lookupFirst s.entries (some x) with
      | none => exact lookupFirst_eq_none.mp hl hmem
      | some v =>
        rw [cellOf, hl] at hcell
        simp only [] at hcell
        have hv := hvals s hs _ (lookupFirst_mem hl)
        rw [hcell] at hv
        simp at hv
    · intro hmem
      rw [cellOf, lookupFirst_eq_none.mpr hmem]

/-- Witness for C4 at the spec's example: series A over timestamps 1 and 2,
series B over 2 and 3; the merged rows are exactly timestamps 1, 2, 3 with
B missing at 1 and A missing at 3. -/
theorem merge_outer_join_witness :
    (([⟨"A", [(some 1, some 10), (some 2, some 20)]⟩,
       ⟨"B", [(some 2, some 5), (some 3, some 6)]⟩]
        : List NormSeries).map NormSeries.name).Nodup ∧
    "data" ∉ ([⟨"A", [(some 1, some 10), (some 2, some 20)]⟩,
       ⟨"B", [(some 2, some 5), (some 3, some 6)]⟩]
        : List NormSeries).map NormSeries.name ∧
    (∃ ds : List Int,
      List.Sorted (· < ·) ds ∧
      (mergeSeries [⟨"A", [(some 1, some 10), (some 2, some 20)]⟩,
          ⟨"B", [(some 2, some 5), (some 3, some 6)]⟩]).rows.map
            (fun r => getCell r "data") = ds.map some ∧
      (∀ x : Int, x ∈ ds ↔ ∃ s ∈ ([⟨"A", [(some 1, some 10), (some 2, some 20)]⟩,
          ⟨"B", [(some 2, some 5), (some 3, some 6)]⟩] : List NormSeries),
            some x ∈ s.entries.map Prod.fst) ∧
      (∀ r ∈ (mergeSeries [⟨"A", [(some 1, some 10), (some 2, some 20)]⟩,
          ⟨"B", [(some 2, some 5), (some 3, some 6)]⟩]).rows,
        ∀ s ∈ ([⟨"A", [(some 1, some 10), (some 2, some 20)]⟩,
          ⟨"B", [(some 2, some 5), (some 3, some 6)]⟩] : List NormSeries),
        ∀ x : Int, getCell r "data" = some x →
          (getCell r s.name = none ↔ some x ∉ s.entries.map Prod.fst))) :=
  ⟨by decide, by decide,
    merge_outer_join _ (by decide) (by decide) (by decide) (by decide)⟩

/-- The `sources` list of `process_data`: the 6 generation columns. -/
def SOURCES : List String :=
  ["Kaupimo", "Saules", "Kitu", "Siluminiu", "Hidro", "Vejo"]

/-- `df[sources] = df[sources].fillna(0)` acting on one row: a missing cell
of a generation column becomes 0, every other cell is untouched. -/
def fillnaRow (r : Row) : Row :=
  r.map (fun kv => (kv.1, if kv.1 ∈ SOURCES then some (kv.2.getD 0) else kv.2))

/-- `df[col] = df[col].ffill()`: walk the rows downward carrying the last
known value of `col`; a present cell is kept (and becomes the new carried
value), a missing cell receives the carried value (still missing before
the first known value). -/
def ffillCol (col : String) : List Row → Option Int → List Row
  | [], _ => []
  | r :: rs, last =>
    match getCell r col with
    | some v => setCell r col (some v) :: ffillCol col rs (some v)
    | none => setCell r col last :: ffillCol col rs last

/-- `df[sources].sum(axis=1)` for one row (pandas sums treating missing as
0 by default; after the zero-fill no generation cell is missing anyway). -/
def sumSources (r : Row) : Int :=
  (SOURCES.map (fun c => (getCell r c).getD 0)).sum

/-- `df["Sumine_Generacija"] = df[sources].sum(axis=1)` on one row. -/
def addSumineRow (r : Row) : Row :=
  setCell r "Sumine_Generacija" (some (sumSources r))

/-- `df["Sumine_Generacija"] - df["Vartojimas"]` on one row, with pandas'
missing-propagating subtraction. -/
def disbValue (r : Row) : Option Int :=
  match getCell r "Sumine_Generacija", getCell r "Vartojimas" with
  | some s, some v => some (s - v)
  | _, _ => none

/-- `df["Disbalansas"] = df["Sumine_Generacija"] - df["Vartojimas"]` on one
row. -/
def addDisbalansasRow (r : Row) : Row :=
  setCell r "Disbalansas" (disbValue r)

/-- `process_data` from the source: returns the table unchanged when it is
empty; otherwise re-applies the window trim, zero-fills the 6 generation
columns, forward-fills the consumption column, and appends the aggregate
generation and imbalance columns.  Selecting `df[sources]` (or
`df["Vartojimas"]`) when a column is absent raises a pandas `KeyError`,
modelled as an `Except.error`. -/
def process_data (df : Table) : Except String Table :=
  if df.rows.isEmpty then .ok df
  else if SOURCES.all (fun c => decide (c ∈ (limit_to_last_6_months df "data").cols)) then
    if "Vartojimas" ∈ (limit_to_last_6_months df "data").cols then
      .ok ⟨(limit_to_last_6_months df "data").cols
            ++ ["Sumine_Generacija", "Disbalansas"],
        ((ffillCol "Vartojimas"
            ((limit_to_last_6_months df "data").rows.map fillnaRow) none).map
          addSumineRow).map addDisbalansasRow⟩
    else .error "KeyError: Vartojimas"
  else .error "KeyError: generation columns"

/-- The most recent `some` value in a list of cells (`none` when all are
missing): the reference behaviour of a forward fill read at the last
position of the list. -/
def lastSome (l : List (Option Int)) : Option Int :=
  l.foldl (fun acc x => match x with | some v => some v | none => acc) none

theorem hasKey_iff_mem {r : Row} {c : String} :
    hasKey r c = true ↔ c ∈ r.map Prod.fst := by
  induction r with
  | nil => simp [hasKey]
  | cons kv rest ih =>
    obtain ⟨k0, v0⟩ := kv
    by_cases hk : k0 = c
    · simp [hasKey, hk]
    · have hk' : ¬ c = k0 := fun h => hk h.symm
      simp [hasKey, hk, hk', ih]

theorem getCell_setCell_self (c : String) (v : Option Int) :
    ∀ r : Row, getCell (setCell r c v) c = v := by
  intro r
  induction r with
  | nil => simp [setCell, hasKey, getCell]
  | cons kv rest ih =>
    obtain ⟨k0, v0⟩ := kv
    by_cases hk : k0 = c
    · simp [setCell, hasKey, hk, getCell]
    · by_cases hrest : hasKey rest c
      · rw [setCell, if_pos (by simp [hasKey, hk, hrest])]
        have hih := ih
        rw [setCell, if_pos hrest] at hih
        simpa [getCell, hk] using hih
      · have hrest2 : hasKey rest c = false := by
          cases hx : hasKey rest c
          · rfl
          · exact absurd hx hrest
        rw [setCell, if_neg (by simp [hasKey, hk, hrest2])]
        rw [List.cons_append, getCell, if_neg hk]
        have hih := ih
        rw [setCell, if_neg (by simp [hrest2])] at hih
        exact hih

theorem getCell_append_ne {c c' : String} (h : ¬ c = c') (v : Option Int) :
    ∀ r : Row, getCell (r ++ [(c, v)]) c' = getCell r c' := by
  intro r
  induction r with
  | nil => simp [getCell, h]
  | cons kv rest ih =>
    obtain ⟨k0, v0⟩ := kv
    rw [List.cons_append, getCell, getCell]
    by_cases hk : k0 = c'
    · rw [if_pos hk, if_pos hk]
    · rw [if_neg hk, if_neg hk, ih]

theorem getCell_setCell_ne {c' c : String} (h : ¬ c' = c) (v : Option Int) :
    ∀ r : Row, getCell (setCell r c v) c' = getCell r c' := by
  have hcc : ¬ c = c' := fun hx => h hx.symm
  have hmap : ∀ r : Row,
      getCell (r.map (fun kv => (kv.1, if kv.1 = c then v else kv.2))) c'
        = getCell r c' := by
    intro r
    induction r with
    | nil => rfl
    | cons kv rest ih =>
      obtain ⟨k0, v0⟩ := kv
      by_cases hk2 : k0 = c'
      · have hk0 : ¬ k0 = c := fun hx => h (hk2 ▸ hx)
        simp [getCell, hk2, hk0, h]
      · simp [getCell, hk2, ih]
  intro r
  rw [setCell]
  by_cases hr : hasKey r c
  · rw [if_pos hr]
    exact hmap r
  · rw [if_neg hr]
    exact getCell_append_ne hcc v r

theorem getD_map_row (f : Row → Row) :
    ∀ (l : List Row) (i : Nat), i < l.length →
    (l.map f).getD i [] = f (l.getD i []) := by
  intro l
  induction l with
  | nil => intro i h; simp at h
  | cons r rs ih =>
    intro i h
    cases i with
    | zero => rfl
    | succ n => exact ih n (by simpa using h)

theorem getD_mem {α : Type} :
    ∀ (l : List α) (i : Nat) (d : α), i < l.length → l.getD i d ∈ l := by
  intro l
  induction l with
  | nil => intro i d h; simp at h
  | cons a as ih =>
    intro i d h
    cases i with
    | zero => exact List.mem_cons_self _ _
    | succ n => exact List.mem_cons_of_mem _ (ih n d (by simpa using h))

theorem ffillCol_length (col : String) :
    ∀ (rows : List Row) (acc : Option Int),
    (ffillCol col rows acc).length = rows.length := by
  intro rows
  induction rows with
  | nil => intro acc; rfl
  | cons r rs ih =>
    intro acc
    cases hcur : getCell r col <;> simp [ffillCol, hcur, ih]

theorem ffillCol_getCell_ne {c col : String} (h : ¬ c = col) :
    ∀ (rows : List Row) (acc : Option Int) (i : Nat), i < rows.length →
    getCell ((ffillCol col rows acc).getD i []) c
      = getCell (rows.getD i []) c := by
  intro rows
  induction rows with
  | nil => intro acc i hi; simp at hi
  | cons r rs ih =>
    intro acc i hi
    cases i with
    | zero =>
      cases hcur : getCell r col <;>
        simp [ffillCol, hcur, getCell_setCell_ne h]
    | succ n =>
      cases hcur : getCell r col <;>
        simpa [ffillCol, hcur] using ih _ n (by simpa using hi)

theorem ffillCol_getCell_spec (col : String) :
    ∀ (rows : List Row) (acc : Option Int) (i : Nat), i < rows.length →
    getCell ((ffillCol col rows acc).getD i []) col
      = ((rows.take (i + 1)).map (fun r => getCell r col)).foldl
          (fun a x => match x with | some v => some v | none => a) acc := by
  intro rows
  induction rows with
  | nil => intro acc i hi; simp at hi
  | cons r rs ih =>
    intro acc i hi
    cases i with
    | zero =>
      cases hcur : getCell r col <;>
        simp [ffillCol, hcur, getCell_setCell_self, List.take_succ_cons]
    | succ n =>
      cases hcur : getCell r col <;>
        simpa [ffillCol, hcur, List.take_succ_cons]
          using ih _ n (by simpa using hi)

theorem getCell_fillnaRow_not_source {c : String} (hc : c ∉ SOURCES) :
    ∀ r : Row, getCell (fillnaRow r) c = getCell r c := by
  intro r
  induction r with
  | nil => rfl
  | cons kv rest ih =>
    obtain ⟨k0, v0⟩ := kv
    rw [fillnaRow, List.map_cons]
    rw [getCell, getCell]
    by_cases hk : k0 = c
    · rw [if_pos hk, if_pos hk, if_neg (hk ▸ hc)]
    · rw [if_neg hk, if_neg hk]
      exact ih

theorem getCell_fillnaRow_source {c : String} (hc : c ∈ SOURCES) :
    ∀ r : Row, hasKey r c = true →
    getCell (fillnaRow r) c = some ((getCell r c).getD 0) := by
  intro r
  induction r with
  | nil => intro h; simp [hasKey] at h
  | cons kv rest ih =>
    obtain ⟨k0, v0⟩ := kv
    intro h
    rw [fillnaRow, List.map_cons, getCell]
    by_cases hk : k0 = c
    · rw [if_pos hk, if_pos (hk ▸ hc)]
      rw [getCell, if_pos hk]
    · rw [if_neg hk, getCell, if_neg hk]
      rw [hasKey] at h
      simp [hk] at h
      exact ih h

theorem limit6_rows_subset {df : Table} {c : String} {r : Row}
    (h : r ∈ (limit_to_last_6_months df c).rows) : r ∈ df.rows := by
  rw [limit_to_last_6_months] at h
  split at h
  · exact h
  · split at h
    · split at h
      · exact h
      · exact (List.mem_filter.mp h).1
    · exact h

theorem sources_name_ne {c : String} (hc : c ∈ SOURCES) :
    ¬ c = "Disbalansas" ∧ ¬ c = "Sumine_Generacija" ∧
      ¬ c = "Vartojimas" ∧ ¬ c = "data" := by
  fin_cases hc <;> exact ⟨by decide, by decide, by decide, by decide⟩

/-- Claim C6: in every processed table, the aggregate-generation column
equals the row-wise sum of the 6 gap-filled generation columns, and for
every row with a defined consumption value the imbalance column equals
exactly that sum minus the consumption. -/
theorem process_imbalance_identity (df out : Table)
    (hp : process_data df = Except.ok out) :
    ∀ row ∈ out.rows,
      getCell row "Sumine_Generacija" = some (sumSources row) ∧
      (∀ v : Int, getCell row "Vartojimas" = some v →
        getCell row "Disbalansas" = some (sumSources row - v)) := by
  intro row hrow
  rw [process_data] at hp
  by_cases hE : df.rows.isEmpty
  · rw [if_pos hE] at hp
    injection hp with hout
    cases hrows : df.rows with
    | nil =>
      rw [← hout, hrows] at hrow
      simp at hrow
    | cons a l => rw [hrows] at hE; simp at hE
  · rw [if_neg hE] at hp
    by_cases h1 : SOURCES.all
        (fun c => decide (c ∈ (limit_to_last_6_months df "data").cols)) = true
    · rw [if_pos h1] at hp
      by_cases h2 : "Vartojimas" ∈ (limit_to_last_6_months df "data").cols
      · rw [if_pos h2] at hp
        injection hp with hout
        rw [← hout] at hrow
        obtain ⟨r3, hr3, rfl⟩ := List.mem_map.mp hrow
        obtain ⟨r2, hr2, rfl⟩ := List.mem_map.mp hr3
        have hnd1 : ¬ ("Sumine_Generacija" : String) = "Disbalansas" := by decide
        have hnd2 : ¬ ("Vartojimas" : String) = "Disbalansas" := by decide
        have hnd3 : ¬ ("Vartojimas" : String) = "Sumine_Generacija" := by decide
        have hsum_cells : ∀ c ∈ SOURCES,
            getCell (addDisbalansasRow (addSumineRow r2)) c = getCell r2 c := by
          intro c hc
          obtain ⟨hcd, hcs, _, _⟩ := sources_name_ne hc
          rw [addDisbalansasRow, getCell_setCell_ne hcd, addSumineRow,
            getCell_setCell_ne hcs]
        have hsums : sumSources (addDisbalansasRow (addSumineRow r2))
            = sumSources r2 := by
          rw [sumSources, sumSources]
          congr 1
          exact List.map_congr_left (fun c hc => by rw [hsum_cells c hc])
        have hSum : getCell (addDisbalansasRow (addSumineRow r2))
            "Sumine_Generacija" = some (sumSources r2) := by
          rw [addDisbalansasRow, getCell_setCell_ne hnd1, addSumineRow,
            getCell_setCell_self]
        have hVart : getCell (addDisbalansasRow (addSumineRow r2)) "Vartojimas"
            = getCell r2 "Vartojimas" := by
          rw [addDisbalansasRow, getCell_setCell_ne hnd2, addSumineRow,
            getCell_setCell_ne hnd3]
        refine ⟨by rw [hSum, hsums], ?_⟩
        intro v hv
        have hDisb : getCell (addDisbalansasRow (addSumineRow r2)) "Disbalansas"
            = disbValue (addSumineRow r2) := by
          rw [addDisbalansasRow, getCell_setCell_self]
        have e1 : getCell (addSumineRow r2) "Sumine_Generacija"
            = some (sumSources r2) := by
          rw [addSumineRow, getCell_setCell_self]
        have e2 : getCell (addSumineRow r2) "Vartojimas" = some v := by
          rw [addSumineRow, getCell_setCell_ne hnd3]
          exact hVart.symm.trans hv
        rw [hDisb, disbValue, e1, e2, hsums]
      · rw [if_neg h2] at hp
        simp at hp
    · rw [if_neg h1] at hp
      simp at hp

/-- Witness for C6 at a concrete one-row table: aggregate generation 10,
consumption 5, imbalance 5. -/
theorem process_imbalance_identity_witness :
    process_data ⟨["data", "Kaupimo", "Saules", "Kitu", "Siluminiu", "Hidro",
        "Vejo", "Vartojimas"],
      [[("data", some 0), ("Kaupimo", none), ("Saules", some 10),
        ("Kitu", none), ("Siluminiu", none), ("Hidro", none), ("Vejo", none),
        ("Vartojimas", some 5)]]⟩
      = Except.ok ⟨["data", "Kaupimo", "Saules", "Kitu", "Siluminiu", "Hidro",
        "Vejo", "Vartojimas", "Sumine_Generacija", "Disbalansas"],
      [[("data", some 0), ("Kaupimo", some 0), ("Saules", some 10),
        ("Kitu", some 0), ("Siluminiu", some 0), ("Hidro", some 0),
        ("Vejo", some 0), ("Vartojimas", some 5),
        ("Sumine_Generacija", some 10), ("Disbalansas", some 5)]]⟩ ∧
    (∀ row ∈ (Table.mk ["data", "Kaupimo", "Saules", "Kitu", "Siluminiu",
        "Hidro", "Vejo", "Vartojimas", "Sumine_Generacija", "Disbalansas"]
      [[("data", some 0), ("Kaupimo", some 0), ("Saules", some 10),
        ("Kitu", some 0), ("Siluminiu", some 0), ("Hidro", some 0),
        ("Vejo", some 0), ("Vartojimas", some 5),
        ("Sumine_Generacija", some 10), ("Disbalansas", some 5)]]).rows,
      getCell row "Sumine_Generacija" = some (sumSources row) ∧
      (∀ v : Int, getCell row "Vartojimas" = some v →
        getCell row "Disbalansas" = some (sumSources row - v))) :=
  ⟨rfl, process_imbalance_identity ⟨["data", "Kaupimo", "Saules", "Kitu",
      "Siluminiu", "Hidro", "Vejo", "Vartojimas"],
      [[("data", some 0), ("Kaupimo", none), ("Saules", some 10),
        ("Kitu", none), ("Siluminiu", none), ("Hidro", none), ("Vejo", none),
        ("Vartojimas", some 5)]]⟩ _ rfl⟩

/-- Claim C5: processing a table that carries all needed columns succeeds,
preserves the (trimmed) row count, turns every missing generation cell
into 0 while leaving present generation cells untouched (zero-fill only,
never forward-fill), and gives every consumption cell the nearest prior
non-missing consumption value, leaving leading unknown cells missing
(forward-fill only, never zero-fill). -/
theorem process_gap_fill_policies (df : Table)
    (hW : ∀ r ∈ df.rows, r.map Prod.fst = df.cols)
    (hne : df.rows ≠ [])
    (hs : ∀ c ∈ SOURCES, c ∈ df.cols)
    (hv : "Vartojimas" ∈ df.cols) :
    ∃ out, process_data df = Except.ok out ∧
      out.rows.length = (limit_to_last_6_months df "data").rows.length ∧
      (∀ i, i < out.rows.length → ∀ c ∈ SOURCES,
        getCell (out.rows.getD i []) c
          = some ((getCell ((limit_to_last_6_months df "data").rows.getD i []) c).getD 0)) ∧
      (∀ i, i < out.rows.length →
        getCell (out.rows.getD i []) "Vartojimas"
          = lastSome (((limit_to_last_6_months df "data").rows.take (i + 1)).map
              (fun r => getCell r "Vartojimas"))) := by
  have hcols := limit6_cols df "data"
  have hEf : df.rows.isEmpty = false := isEmpty_false_of_ne hne
  have h1 : SOURCES.all
      (fun c => decide (c ∈ (limit_to_last_6_months df "data").cols)) = true := by
    apply List.all_eq_true.mpr
    intro c hc
    rw [hcols]
    exact decide_eq_true (hs c hc)
  have h2 : "Vartojimas" ∈ (limit_to_last_6_months df "data").cols := by
    rw [hcols]; exact hv
  have hlen1 : ((limit_to_last_6_months df "data").rows.map fillnaRow).length
      = (limit_to_last_6_months df "data").rows.length := List.length_map _ _
  have hlen2 : (ffillCol "Vartojimas"
        ((limit_to_last_6_months df "data").rows.map fillnaRow) none).length
      = (limit_to_last_6_months df "data").rows.length := by
    rw [ffillCol_length]
    exact hlen1
  refine ⟨⟨(limit_to_last_6_months df "data").cols
      ++ ["Sumine_Generacija", "Disbalansas"],
    ((ffillCol "Vartojimas"
        ((limit_to_last_6_months df "data").rows.map fillnaRow) none).map
      addSumineRow).map addDisbalansasRow⟩, ?_, ?_, ?_, ?_⟩
  · rw [process_data, if_neg (by simp [hEf]), if_pos h1, if_pos h2]
  · simp only [List.length_map]
    exact hlen2
  · intro i hi c hc
    simp only [List.length_map] at hi
    have hilen : i < (limit_to_last_6_months df "data").rows.length := by
      rw [← hlen2]; exact hi
    obtain ⟨hcd, hcs, hcv, _⟩ := sources_name_ne hc
    rw [getD_map_row addDisbalansasRow _ i (by simp only [List.length_map]; exact hi)]
    rw [getD_map_row addSumineRow _ i hi]
    rw [addDisbalansasRow, getCell_setCell_ne hcd, addSumineRow,
      getCell_setCell_ne hcs]
    rw [ffillCol_getCell_ne hcv _ none i (by rw [hlen1]; exact hilen)]
    rw [getD_map_row fillnaRow _ i hilen]
    apply getCell_fillnaRow_source hc
    have hmem : (limit_to_last_6_months df "data").rows.getD i []
        ∈ (limit_to_last_6_months df "data").rows := getD_mem _ i [] hilen
    have hmemdf : (limit_to_last_6_months df "data").rows.getD i [] ∈ df.rows :=
      limit6_rows_subset hmem
    rw [hasKey_iff_mem, hW _ hmemdf]
    exact hs c hc
  · intro i hi
    simp only [List.length_map] at hi
    have hilen : i < (limit_to_last_6_months df "data").rows.length := by
      rw [← hlen2]; exact hi
    rw [getD_map_row addDisbalansasRow _ i (by simp only [List.length_map]; exact hi)]
    rw [getD_map_row addSumineRow _ i hi]
    rw [addDisbalansasRow,
      getCell_setCell_ne (show ¬ ("Vartojimas" : String) = "Disbalansas" by decide),
      addSumineRow,
      getCell_setCell_ne (show ¬ ("Vartojimas" : String) = "Sumine_Generacija" by decide)]
    rw [ffillCol_getCell_spec "Vartojimas" _ none i (by rw [hlen1]; exact hilen)]
    have hmaps : (((limit_to_last_6_months df "data").rows.map fillnaRow).take (i + 1)).map
          (fun r => getCell r "Vartojimas")
        = ((limit_to_last_6_months df "data").rows.take (i + 1)).map
          (fun r => getCell r "Vartojimas") := by
      rw [List.map_take, List.map_map, List.map_take]
      congr 1
      apply List.map_congr_left
      intro r _
      exact getCell_fillnaRow_not_source (by decide) r
    rw [hmaps, lastSome]

/-- Witness for C5 at a concrete two-row table: in row 1 the missing Saules
cell becomes 0 and the missing consumption cell receives the prior value
5. -/
theorem process_gap_fill_policies_witness :
    (∀ r ∈ (Table.mk ["data", "Kaupimo", "Saules", "Kitu", "Siluminiu",
        "Hidro", "Vejo", "Vartojimas"]
      [[("data", some 0), ("Kaupimo", some 1), ("Saules", some 10),
        ("Kitu", some 2), ("Siluminiu", some 3), ("Hidro", some 4),
        ("Vejo", some 5), ("Vartojimas", some 5)],
       [("data", some 1), ("Kaupimo", none), ("Saules", none),
        ("Kitu", none), ("Siluminiu", none), ("Hidro", none),
        ("Vejo", none), ("Vartojimas", none)]]).rows,
      r.map Prod.fst = ["data", "Kaupimo", "Saules", "Kitu", "Siluminiu",
        "Hidro", "Vejo", "Vartojimas"]) ∧
    (∃ out, process_data (Table.mk ["data", "Kaupimo", "Saules", "Kitu",
        "Siluminiu", "Hidro", "Vejo", "Vartojimas"]
      [[("data", some 0), ("Kaupimo", some 1), ("Saules", some 10),
        ("Kitu", some 2), ("Siluminiu", some 3), ("Hidro", some 4),
        ("Vejo", some 5), ("Vartojimas", some 5)],
       [("data", some 1), ("Kaupimo", none), ("Saules", none),
        ("Kitu", none), ("Siluminiu", none), ("Hidro", none),
        ("Vejo", none), ("Vartojimas", none)]]) = Except.ok out ∧
      out.rows.length = (limit_to_last_6_months (Table.mk ["data", "Kaupimo",
        "Saules", "Kitu", "Siluminiu", "Hidro", "Vejo", "Vartojimas"]
      [[("data", some 0), ("Kaupimo", some 1), ("Saules", some 10),
        ("Kitu", some 2), ("Siluminiu", some 3), ("Hidro", some 4),
        ("Vejo", some 5), ("Vartojimas", some 5)],
       [("data", some 1), ("Kaupimo", none), ("Saules", none),
        ("Kitu", none), ("Siluminiu", none), ("Hidro", none),
        ("Vejo", none), ("Vartojimas", none)]]) "data").rows.length ∧
      (∀ i, i < out.rows.length → ∀ c ∈ SOURCES,
        getCell (out.rows.getD i []) c
          = some ((getCell ((limit_to_last_6_months (Table.mk ["data",
              "Kaupimo", "Saules", "Kitu", "Siluminiu", "Hidro", "Vejo",
              "Vartojimas"]
      [[("data", some 0), ("Kaupimo", some 1), ("Saules", some 10),
        ("Kitu", some 2), ("Siluminiu", some 3), ("Hidro", some 4),
        ("Vejo", some 5), ("Vartojimas", some 5)],
       [("data", some 1), ("Kaupimo", none), ("Saules", none),
        ("Kitu", none), ("Siluminiu", none), ("Hidro", none),
        ("Vejo", none), ("Vartojimas", none)]]) "data").rows.getD i []) c).getD 0)) ∧
      (∀ i, i < out.rows.length →
        getCell (out.rows.getD i []) "Vartojimas"
          = lastSome (((limit_to_last_6_months (Table.mk ["data", "Kaupimo",
              "Saules", "Kitu", "Siluminiu", "Hidro", "Vejo", "Vartojimas"]
      [[("data", some 0), ("Kaupimo", some 1), ("Saules", some 10),
        ("Kitu", some 2), ("Siluminiu", some 3), ("Hidro", some 4),
        ("Vejo", some 5), ("Vartojimas", some 5)],
       [("data", some 1), ("Kaupimo", none), ("Saules", none),
        ("Kitu", none), ("Siluminiu", none), ("Hidro", none),
        ("Vejo", none), ("Vartojimas", none)]]) "data").rows.take (i + 1)).map
              (fun r => getCell r "Vartojimas")))) :=
  ⟨by decide,
    process_gap_fill_policies _ (by decide) (by decide) (by decide) (by decide)⟩

/-- The `datasets` registry of `fetch_all_data`: dataset id to display
name, 6 generation sources (ids starting with 1) and one consumption
series (id 203). -/
def DATASETS : List (String × String) :=
  [("101", "Kaupimo"), ("102", "Saules"), ("103", "Kitu"),
   ("104", "Siluminiu"), ("105", "Hidro"), ("106", "Vejo"),
   ("203", "Vartojimas")]

/-- `fetch_all_data` from the source, parameterised by the network:
`results id` is what `fetch_dataset` returned for dataset `id` (the empty
list on a failed fetch).  Each fetched list is normalized (and skipped
when empty or missing the expected columns); with no surviving series the
explicitly-empty DataFrame is returned, otherwise the outer-join merge
followed by the rolling-window trim. -/
def fetch_all_data (results : String → List RawRecord) : Table :=
  if (DATASETS.filterMap (fun d => normalize (results d.1) d.2)).isEmpty then
    ⟨[], []⟩
  else
    limit_to_last_6_months
      (mergeSeries (DATASETS.filterMap (fun d => normalize (results d.1) d.2)))
      "data"

/-- Network results for claim C1's scenario: only the Hidro generation
series (id 105) and the consumption series (id 203) return data; the
other five fetches fail with an empty result. -/
def C1results : String → List RawRecord := fun id =>
  if id = "105" then [⟨some 24, some 50⟩, ⟨some 48, some 60⟩]
  else if id = "203" then [⟨some 24, some 500⟩, ⟨some 48, some 520⟩]
  else []

/-- Network results for claim C8's scenario: the Solar series (`Saules`,
id 102) with day-1 value 10 and day-3 value 30, the consumption series
(`Vartojimas`, id 203) with values 5, 6, 7 on days 1-3, nothing else. -/
def C8results : String → List RawRecord := fun id =>
  if id = "102" then [⟨some 24, some 10⟩, ⟨some 72, some 30⟩]
  else if id = "203" then
    [⟨some 24, some 5⟩, ⟨some 48, some 6⟩, ⟨some 72, some 7⟩]
  else []

/-- Claim C1 (code bug): when some but not all series are missing, the
pipeline does not proceed to a processed table.  Here only Hidro and
Vartojimas were fetched: the merge succeeds and produces a non-empty
partial table, but `process_data` raises a `KeyError` selecting the five
absent generation columns instead of zero-filling their contribution. -/
theorem partial_series_process_raises :
    fetch_all_data C1results
      = ⟨["data", "Hidro", "Vartojimas"],
        [[("data", some 24), ("Hidro", some 50), ("Vartojimas", some 500)],
         [("data", some 48), ("Hidro", some 60), ("Vartojimas", some 520)]]⟩ ∧
    process_data (fetch_all_data C1results)
      = Except.error "KeyError: generation columns" :=
  ⟨rfl, rfl⟩

/-- Claim C8 (code bug): on the spec's end-to-end scenario (2 series,
Solar over days 1 and 3, consumption over days 1-3) the merge does yield
the expected 3-row table with Solar missing on day 2, but `process_data`
then raises a `KeyError` on the five absent generation columns instead of
producing the expected processed table. -/
theorem end_to_end_scenario_raises :
    fetch_all_data C8results
      = ⟨["data", "Saules", "Vartojimas"],
        [[("data", some 24), ("Saules", some 10), ("Vartojimas", some 5)],
         [("data", some 48), ("Saules", none), ("Vartojimas", some 6)],
         [("data", some 72), ("Saules", some 30), ("Vartojimas", some 7)]]⟩ ∧
    process_data (fetch_all_data C8results)
      = Except.error "KeyError: generation columns" :=
  ⟨rfl, rfl⟩

end Litgrid
